import Mathlib

/-!
Shallow embedding of the haproxy-table-exporter response-parsing core
(`pkg/main.go`: `parse`, `validateHeader`, `Run`; `pkg/metric.go`;
`cmd/root.go`), together with models of the Go standard-library routines
the core calls (`strings.Split`, `regexp` matching for the two fixed
patterns, `net/netip.ParseAddr`, `netip.Addr.String`, `strconv.Atoi`).
Strings are modelled as `List Char`; Go's `int` is modelled as `Int`
with the 64-bit range checks that `strconv` performs made explicit.
-/

namespace Exporter

/-! ## Character classes of the two fixed regular expressions

Go regexp classes: `\s` is `[\t\n\f\r ]`, `\w` is `[0-9A-Za-z_]`,
`[[:alnum:]]` is `[0-9A-Za-z]`, `[[:alpha:]]` is `[A-Za-z]`,
`[[:digit:]]` is `[0-9]`. -/

def isSpaceGo (c : Char) : Bool :=
  c = '\t' || c = '\n' || c = '\x0c' || c = '\r' || c = ' '

def isDigitCh (c : Char) : Bool :=
  decide (48 ≤ c.toNat ∧ c.toNat ≤ 57)

def isUpperCh (c : Char) : Bool :=
  decide (65 ≤ c.toNat ∧ c.toNat ≤ 90)

def isLowerCh (c : Char) : Bool :=
  decide (97 ≤ c.toNat ∧ c.toNat ≤ 122)

def isAlphaCh (c : Char) : Bool :=
  isUpperCh c || isLowerCh c

def isAlnumCh (c : Char) : Bool :=
  isAlphaCh c || isDigitCh c

/-- Class of the row pattern's `storeType` capture group: `[[:alnum:]_]`. -/
def isStoreChar (c : Char) : Bool :=
  isAlnumCh c || c = '_'

/-- Class of the row pattern's `ip` capture group: `[0-9a-fA-F:.]`. -/
def isIpChar (c : Char) : Bool :=
  isDigitCh c || decide (97 ≤ c.toNat ∧ c.toNat ≤ 102) ||
    decide (65 ≤ c.toNat ∧ c.toNat ≤ 70) || c = ':' || c = '.'

/-- Class of the header pattern's `tableName` capture group: `[\w\-.]`. -/
def isNameChar (c : Char) : Bool :=
  isAlnumCh c || c = '_' || c = '-' || c = '.'

/-! ## Line splitting

Model of `strings.Split(response, "\n")`: `strings.Split` of the empty
string is a one-element list holding the empty string, and otherwise
the separator-delimited pieces (empty pieces included). -/

def consHead (c : Char) : List (List Char) → List (List Char)
  | [] => [[c]]
  | l :: ls => (c :: l) :: ls

def splitLines : List Char → List (List Char)
  | [] => [[]]
  | c :: t => if c = '\n' then [] :: splitLines t else consHead c (splitLines t)

/-- Joining with the separator is the left inverse of `splitLines`;
used to phrase "the response with one line removed". -/
def joinLines : List (List Char) → List Char
  | [] => []
  | [l] => l
  | l :: ls => l ++ '\n' :: joinLines ls

/-! ## Deterministic matcher steps

The two patterns of `pkg/main.go` are concatenations of literals and
greedy character-class runs in which no class contains the character
that follows it, so RE2 matching is equivalent to the deterministic
"consume the literal / consume the maximal run" steps below.  The one
optional group `(?: gpc\d=\d+)?` is handled with explicit
try-then-backtrack. -/

def expectLit (lit s : List Char) : Option (List Char) :=
  if lit.isPrefixOf s then some (s.drop lit.length) else none

def takeRun1 (p : Char → Bool) (s : List Char) : Option (List Char × List Char) :=
  match s.takeWhile p with
  | [] => none
  | t => some (t, s.dropWhile p)

/-! ## The row pattern

Embedding of the compiled expression of `parse`:
`^\s*0x[[:alnum:]]+: key=(?P<ip>[0-9a-fA-F:.]+) use=[[:digit:]]+ exp=[[:digit:]]+ shard=[[:digit:]]+(?: gpc\d=\d+)? (?P<storeType>[[:alnum:]_]+)\([[:digit:]]+\)=(?P<rate>[[:digit:]]+)$`
`rowMatch` returns the three captures `(ip, storeType, rate)` exactly
when the whole line matches. -/

def rowTail (s : List Char) : Option (List Char × List Char) :=
  match expectLit " ".data s with
  | none => none
  | some s1 =>
    match takeRun1 isStoreChar s1 with
    | none => none
    | some (st, s2) =>
      match expectLit "(".data s2 with
      | none => none
      | some s3 =>
        match takeRun1 isDigitCh s3 with
        | none => none
        | some (_, s4) =>
          match expectLit ")=".data s4 with
          | none => none
          | some s5 =>
            match takeRun1 isDigitCh s5 with
            | none => none
            | some (rate, s6) => if s6 = [] then some (st, rate) else none

def gpcOpt (s : List Char) : Option (List Char) :=
  match expectLit " gpc".data s with
  | none => none
  | some s1 =>
    match s1 with
    | [] => none
    | c :: t =>
      if isDigitCh c then
        match expectLit "=".data t with
        | none => none
        | some s2 =>
          match takeRun1 isDigitCh s2 with
          | none => none
          | some (_, s3) => some s3
      else none

def rowMatch (line : List Char) : Option (List Char × List Char × List Char) :=
  match expectLit "0x".data (line.dropWhile isSpaceGo) with
  | none => none
  | some s1 =>
    match takeRun1 isAlnumCh s1 with
    | none => none
    | some (_, s2) =>
      match expectLit ": key=".data s2 with
      | none => none
      | some s3 =>
        match takeRun1 isIpChar s3 with
        | none => none
        | some (ip, s4) =>
          match expectLit " use=".data s4 with
          | none => none
          | some s5 =>
            match takeRun1 isDigitCh s5 with
            | none => none
            | some (_, s6) =>
              match expectLit " exp=".data s6 with
              | none => none
              | some s7 =>
                match takeRun1 isDigitCh s7 with
                | none => none
                | some (_, s8) =>
                  match expectLit " shard=".data s8 with
                  | none => none
                  | some s9 =>
                    match takeRun1 isDigitCh s9 with
                    | none => none
                    | some (_, s10) =>
                      match gpcOpt s10 with
                      | some s11 =>
                        match rowTail s11 with
                        | some r => some (ip, r.1, r.2)
                        | none =>
                          match rowTail s10 with
                          | some r => some (ip, r.1, r.2)
                          | none => none
                      | none =>
                        match rowTail s10 with
                        | some r => some (ip, r.1, r.2)
                        | none => none

/-! ## The header pattern

Embedding of the compiled expression of `validateHeader`:
`^#\s+table:\s*(?P<tableName>[\w\-.]+)\s*,\s*type:\s*(?P<tableType>[[:alpha:]]+),`
The pattern is anchored at the start only; everything after the comma
that follows the type is not examined.  `headerCapture` returns the two
captures `(tableName, tableType)` exactly when the pattern matches. -/

def headerCapture (line : List Char) : Option (List Char × List Char) :=
  match expectLit "#".data line with
  | none => none
  | some s1 =>
    match takeRun1 isSpaceGo s1 with
    | none => none
    | some (_, s2) =>
      match expectLit "table:".data s2 with
      | none => none
      | some s3 =>
        match takeRun1 isNameChar (s3.dropWhile isSpaceGo) with
        | none => none
        | some (name, s4) =>
          match expectLit ",".data (s4.dropWhile isSpaceGo) with
          | none => none
          | some s5 =>
            match expectLit "type:".data (s5.dropWhile isSpaceGo) with
            | none => none
            | some s6 =>
              match takeRun1 isAlphaCh (s6.dropWhile isSpaceGo) with
              | none => none
              | some (ty, s7) =>
                match expectLit ",".data s7 with
                | none => none
                | some _ => some (name, ty)

/-! ## Model of `net/netip.ParseAddr` and `netip.Addr.String`

`netip.Addr` is a 128-bit value plus a zone tag; an address built by
`AddrFrom4` (`z4`) is distinct from the same bits built by `AddrFrom16`
(an IPv4-in-IPv6 address), which is how Go's map keys behave.  As in
Go, `AddrFrom4` stores the four octets as the low 32 bits under the
`::ffff:` prefix. -/

structure Addr where
  is4 : Bool
  bits : Nat
  zone : List Char
deriving DecidableEq

def AddrFrom4 (a b c d : Nat) : Addr :=
  ⟨true, 0xffff * 2 ^ 32 + (a * 2 ^ 24 + b * 2 ^ 16 + c * 2 ^ 8 + d), []⟩

def bytesToNat (bs : List Nat) : Nat :=
  bs.foldl (fun n b => n * 256 + b) 0

/-- Loop of Go's `parseIPv4Fields`: scans decimal octets separated by
dots, rejecting leading zeros, values over 255, empty fields, a
trailing dot, more than four fields, fewer than four fields, and any
character other than a digit or a dot. -/
def v4loop : List Char → Nat → Nat → Nat → List Nat → Option (List Nat)
  | [], val, _, pos, fields =>
      if pos < 3 then none else some (fields ++ [val])
  | c :: t, val, dig, pos, fields =>
      if isDigitCh c then
        if dig = 1 ∧ val = 0 then none
        else
          let val := val * 10 + (c.toNat - 48)
          if 255 < val then none
          else v4loop t val (dig + 1) pos fields
      else if c = '.' then
        if dig = 0 ∨ t = [] then none
        else if pos = 3 then none
        else v4loop t 0 0 (pos + 1) (fields ++ [val])
      else none

def ipv4Fields (s : List Char) : Option (List Nat) :=
  v4loop s 0 0 0 []

def parseIPv4Go (s : List Char) : Option Addr :=
  match ipv4Fields s with
  | none => none
  | some fs =>
      match fs with
      | [a, b, c, d] => some (AddrFrom4 a b c d)
      | _ => none

def hexVal (c : Char) : Option Nat :=
  if isDigitCh c then some (c.toNat - 48)
  else if decide (97 ≤ c.toNat ∧ c.toNat ≤ 102) then some (c.toNat - 97 + 10)
  else if decide (65 ≤ c.toNat ∧ c.toNat ≤ 70) then some (c.toNat - 65 + 10)
  else none

/-- Inner hex-group scanner of Go's `parseIPv6`: consumes up to four
hex digits (a fifth is an error), returning the accumulated value, the
number of digits consumed, and the rest of the string. -/
def readHexGroup : List Char → Nat → Nat → Option (Nat × Nat × List Char)
  | [], acc, off => some (acc, off, ([] : List Char))
  | c :: t, acc, off =>
      match hexVal c with
      | none => some (acc, off, c :: t)
      | some v =>
          if 3 < off then none
          else readHexGroup t (acc * 16 + v) (off + 1)

/-- Go splits any `%zone` suffix off before parsing the IPv6 numerals;
an empty zone after `%` is an error. -/
def splitZone (s : List Char) : Option (List Char × List Char) :=
  match s.findIdx? (fun c => c = '%') with
  | none => some (s, ([] : List Char))
  | some i =>
      let z := s.drop (i + 1)
      if z = [] then none else some (s.take i, z)

/-- Main loop of Go's `parseIPv6` (`for i < 16`).  State: rest of the
string, byte index `i`, accumulated bytes, position of a `::` if seen.
Returns the state at loop exit, or `none` on a parse error.  Every
recursive call grows `i` by exactly two from a start of zero, so with
fuel 8 the fuel runs out exactly when `i` reaches 16 and the
fuel-exhausted result coincides with the loop-exit result. -/
def v6loop : Nat → List Char → Nat → List Nat → Option Nat →
    Option (List Char × Nat × List Nat × Option Nat)
  | 0, s, i, ip, ell => some (s, i, ip, ell)
  | fuel + 1, s, i, ip, ell =>
    if i < 16 then
      match readHexGroup s 0 0 with
      | none => none
      | some (acc, off, s1) =>
        if off = 0 then none
        else if s1.head? = some '.' then
          if ell = none ∧ i ≠ 12 then none
          else if 16 < i + 4 then none
          else match ipv4Fields s with
            | none => none
            | some fs => some (([] : List Char), i + 4, ip ++ fs, ell)
        else
          let ip1 := ip ++ [acc / 256, acc % 256]
          if s1 = [] then some (s1, i + 2, ip1, ell)
          else if s1.head? ≠ some ':' then none
          else if s1.length = 1 then none
          else
            let s2 := s1.tail
            if s2.head? = some ':' then
              if ell.isSome then none
              else
                let s3 := s2.tail
                if s3 = [] then some (s3, i + 2, ip1, some (i + 2))
                else v6loop fuel s3 (i + 2) ip1 (some (i + 2))
            else v6loop fuel s2 (i + 2) ip1 ell
    else some (s, i, ip, ell)

def parseIPv6Go (s0 : List Char) : Option Addr :=
  match splitZone s0 with
  | none => none
  | some (s, zone) =>
    let lead : List Char × Option Nat :=
      match s with
      | ':' :: ':' :: t => (t, some 0)
      | t => (t, none)
    if lead.1 = [] then
      if lead.2 = some 0 then some ⟨false, 0, zone⟩ else none
    else
      match v6loop 8 lead.1 0 [] lead.2 with
      | none => none
      | some (s, i, ip, ell) =>
        if s ≠ [] then none
        else if i < 16 then
          match ell with
          | none => none
          | some e =>
              some ⟨false, bytesToNat (ip.take e ++ List.replicate (16 - i) 0 ++ ip.drop e), zone⟩
        else if ell.isSome then none
        else some ⟨false, bytesToNat ip, zone⟩

/-- Model of `netip.ParseAddr`: the first of `.` `:` `%` in the string
selects the IPv4 parser, the IPv6 parser, or an immediate error; a
string containing none of them is an error. -/
def goParseAddr (s : List Char) : Option Addr :=
  match s.find? (fun c => c = '.' || c = ':' || c = '%') with
  | some '.' => parseIPv4Go s
  | some ':' => parseIPv6Go s
  | _ => none

/-! ### Printing (`netip.Addr.String`) -/

def digitChar : Nat → Char
  | 0 => '0' | 1 => '1' | 2 => '2' | 3 => '3' | 4 => '4'
  | 5 => '5' | 6 => '6' | 7 => '7' | 8 => '8' | 9 => '9'
  | _ => '0'

/-- Decimal printing, structurally recursive on a fuel bound; `n + 1`
units of fuel always suffice because `n / 10 < n` for `n ≥ 10`. -/
def natDigitsAux : Nat → Nat → List Char
  | _, 0 => []
  | n, fuel + 1 =>
    if n < 10 then [digitChar n]
    else natDigitsAux (n / 10) fuel ++ [digitChar (n % 10)]

def natDigits (n : Nat) : List Char :=
  natDigitsAux n (n + 1)

def hexDigitChar : Nat → Char
  | 0 => '0' | 1 => '1' | 2 => '2' | 3 => '3' | 4 => '4'
  | 5 => '5' | 6 => '6' | 7 => '7' | 8 => '8' | 9 => '9'
  | 10 => 'a' | 11 => 'b' | 12 => 'c' | 13 => 'd' | 14 => 'e'
  | 15 => 'f' | _ => '0'

/-- Go's `appendHex`: lowercase hex of a 16-bit group without leading
zeros (a zero group prints as `0`). -/
def appendHexGo (x : Nat) : List Char :=
  (if 4096 ≤ x then [hexDigitChar (x / 4096 % 16)] else []) ++
  (if 256 ≤ x then [hexDigitChar (x / 256 % 16)] else []) ++
  (if 16 ≤ x then [hexDigitChar (x / 16 % 16)] else []) ++
  [hexDigitChar (x % 16)]

def v4bytes (bits : Nat) : List Nat :=
  [bits / 2 ^ 24 % 256, bits / 2 ^ 16 % 256, bits / 2 ^ 8 % 256, bits % 256]

def string4 (bits : Nat) : List Char :=
  match v4bytes bits with
  | [a, b, c, d] =>
      natDigits a ++ '.' :: natDigits b ++ '.' :: natDigits c ++ '.' :: natDigits d
  | _ => []

def v6groupList (bits : Nat) : List Nat :=
  (List.range 8).map (fun k => bits / 2 ^ (16 * (7 - k)) % 65536)

/-- Zero-run search of Go's `appendTo6`: the leftmost run of at least
two zero groups that is strictly longer than any earlier candidate;
`(255, 255)` when there is none. -/
def findZeroRun (g : List Nat) : Nat × Nat :=
  (List.range 8).foldl
    (fun best i =>
      let j := i + ((g.drop i).takeWhile (fun x => x = 0)).length
      if 2 ≤ j - i ∧ best.2 - best.1 < j - i then (i, j) else best)
    (255, 255)

/-- Printing loop of `appendTo6`; `i` strictly increases, so fuel 16
covers every reachable iteration. -/
def s6loop (g : List Nat) (zs ze : Nat) (i : Nat) : Nat → List Char
  | 0 => []
  | fuel + 1 =>
    if 8 ≤ i then []
    else if i = zs then
      ':' :: ':' ::
        (if 8 ≤ ze then [] else appendHexGo (g.getD ze 0) ++ s6loop g zs ze (ze + 1) fuel)
    else
      (if 0 < i then [':'] else []) ++ appendHexGo (g.getD i 0) ++ s6loop g zs ze (i + 1) fuel

def string6core (bits : Nat) : List Char :=
  let g := v6groupList bits
  let zr := findZeroRun g
  s6loop g zr.1 zr.2 0 16

def is4in6 (a : Addr) : Bool :=
  decide (a.bits < 2 ^ 64 ∧ a.bits / 2 ^ 32 = 0xffff)

/-- Model of `netip.Addr.String`: dotted decimal for `z4` addresses,
`::ffff:`-prefixed dotted decimal for IPv4-in-IPv6, RFC 5952 text
otherwise, with any zone suffixed after `%`. -/
def addrString (a : Addr) : List Char :=
  if a.is4 then string4 a.bits
  else if is4in6 a then
    "::ffff:".data ++ string4 a.bits ++ (if a.zone = [] then [] else '%' :: a.zone)
  else string6core a.bits ++ (if a.zone = [] then [] else '%' :: a.zone)

/-! ## Model of `strconv.Atoi`

`Atoi` parses an optional sign and a base-10 digit string into Go's
64-bit `int`; a value outside the `int64` range is an error
(`ErrRange`), observable in `parse` as a failed conversion. -/

def digitsVal (s : List Char) : Nat :=
  s.foldl (fun n c => n * 10 + (c.toNat - 48)) 0

def goAtoi (s : List Char) : Option Int :=
  match s with
  | [] => none
  | c :: t =>
    let digits := if c = '-' || c = '+' then t else c :: t
    if digits = [] ∨ ¬ digits.all isDigitCh then none
    else
      let v := digitsVal digits
      if c = '-' then
        if v ≤ 2 ^ 63 then some (-(v : Int)) else none
      else
        if v < 2 ^ 63 then some (v : Int) else none

/-! ## The entry parser (`parse` of `pkg/main.go`)

The Go map `map[netip.Addr]int` is modelled as an association list in
insertion order with pairwise-distinct keys (the code rejects a
duplicate key before ever inserting one). -/

instance {ε α : Type} [DecidableEq ε] [DecidableEq α] : DecidableEq (Except ε α) :=
  fun x y =>
    match x, y with
    | .ok a, .ok b =>
      if h : a = b then .isTrue (by rw [h]) else .isFalse (fun he => h (Except.ok.inj he))
    | .error a, .error b =>
      if h : a = b then .isTrue (by rw [h]) else .isFalse (fun he => h (Except.error.inj he))
    | .ok _, .error _ => .isFalse (fun he => Except.noConfusion he)
    | .error _, .ok _ => .isFalse (fun he => Except.noConfusion he)

inductive ParseError where
  | emptyOrMalformedResponse
  | storeTypeMismatch (expected found : List Char)
  | invalidAddress (s : List Char)
  | invalidRate (s : List Char)
  | duplicateKey (a : Addr)
deriving DecidableEq

def hasKey (a : Addr) (m : List (Addr × Int)) : Bool :=
  m.any (fun p => p.1 = a)

/-- Body of one iteration of the `for i := 0; i < len(lines); i++` loop
of `parse`: skip a non-matching line, reject a matched line whose store
type differs, whose address or rate does not convert, or whose address
is already a key, and otherwise insert the entry. -/
def parseStep (expected l : List Char) (acc : List (Addr × Int)) :
    Except ParseError (List (Addr × Int)) :=
  match rowMatch l with
  | none => .ok acc
  | some (ipTxt, st, rateTxt) =>
    if st = expected then
      match goParseAddr ipTxt with
      | none => .error (.invalidAddress ipTxt)
      | some a =>
        match goAtoi rateTxt with
        | none => .error (.invalidRate rateTxt)
        | some rate =>
          if hasKey a acc then .error (.duplicateKey a)
          else .ok (acc ++ [(a, rate)])
    else .error (.storeTypeMismatch expected st)

/-- The loop of `parse`.  Note it runs over every line, the first
included. -/
def parseLoop (expected : List Char) : List (List Char) → List (Addr × Int) →
    Except ParseError (List (Addr × Int))
  | [], acc => .ok acc
  | l :: rest, acc =>
    match parseStep expected l acc with
    | .error e => .error e
    | .ok acc2 => parseLoop expected rest acc2

/-- Embedding of `parse(response, expectedStoreDataType)`. -/
def parse (response : List Char) (expectedStoreDataType : List Char) :
    Except ParseError (List (Addr × Int)) :=
  if response = [] then .error .emptyOrMalformedResponse
  else
    let lines := splitLines response
    if lines.length < 2 then .ok []
    else parseLoop expectedStoreDataType lines []

/-! ## The header validator (`validateHeader` of `pkg/main.go`) -/

inductive HeaderError where
  | emptyOrMalformedResponse
  | headerParseError (header : List Char)
  | tableNameMismatch (expected got : List Char)
  | unsupportedTableType (got : List Char)
deriving DecidableEq

/-- Error text produced by the `fmt.Errorf` calls of `validateHeader`. -/
def headerErrorMessage : HeaderError → List Char
  | .emptyOrMalformedResponse => "Response is empty or malformed".data
  | .headerParseError h =>
      "Failed to parse table header, got '".data ++ h ++ "'".data
  | .tableNameMismatch e g =>
      "Table name mismatch. Expected '".data ++ e ++ "', got '".data ++ g ++ "'".data
  | .unsupportedTableType g =>
      "Unsupported table type '".data ++ g ++ "'. Only 'ip' type is supported".data

/-- Embedding of `validateHeader(response, expectedTableName)`. -/
def validateHeader (response expectedTableName : List Char) :
    Except HeaderError Unit :=
  let lines := splitLines response
  if lines.length < 2 then .error .emptyOrMalformedResponse
  else
    let header := lines.headD []
    match headerCapture header with
    | none => .error (.headerParseError header)
    | some (tableName, tableType) =>
      if tableName = expectedTableName then
        if tableType = "ip".data then .ok ()
        else .error (.unsupportedTableType tableType)
      else .error (.tableNameMismatch expectedTableName tableName)

/-! ## The orchestrating run routine (`Run` of `pkg/main.go`)

`Run` performs socket I/O to obtain the response text and file I/O to
publish the metrics; its decision logic between those two boundaries is
embedded here as a function of the response text it received.  `Run`
hardcodes the literals `"table_requests_limiter_src_ip"` and
`"http_req_rate"` while labelling each exported sample with the table
argument it was given (`metric.go`, `UpdateMetrics`: labels
`client_ip`, `name`, `type` with type fixed to `"ip"`). -/

inductive RunError where
  | headerErr (e : HeaderError)
  | parseErr (e : ParseError)
deriving DecidableEq

structure Sample where
  clientIp : List Char
  name : List Char
  typ : List Char
  value : Int
deriving DecidableEq

def RunCore (table : List Char) (response : List Char) :
    Except RunError (List Sample) :=
  match validateHeader response "table_requests_limiter_src_ip".data with
  | .error e => .error (.headerErr e)
  | .ok _ =>
    match parse response "http_req_rate".data with
    | .error e => .error (.parseErr e)
    | .ok requests =>
        .ok (requests.map fun p =>
          { clientIp := addrString p.1, name := table, typ := "ip".data, value := p.2 })

/-! ## Lemmas about line splitting and joining -/

theorem splitLines_ne_nil (s : List Char) : splitLines s ≠ [] := by
  induction s with
  | nil => simp [splitLines]
  | cons c t ih =>
    simp only [splitLines]
    split
    · simp
    · match h : splitLines t with
      | [] => exact absurd h ih
      | l :: ls => simp [consHead]

theorem splitLines_nil : splitLines [] = [[]] := rfl

theorem splitLines_single {l : List Char} (h : '\n' ∉ l) : splitLines l = [l] := by
  induction l with
  | nil => rfl
  | cons c t ih =>
    have hc : c ≠ '\n' := fun hc => h (by simp [hc])
    have ht : '\n' ∉ t := fun hm => h (by simp [hm])
    simp [splitLines, hc, ih ht, consHead]

theorem splitLines_append_cons {l : List Char} (r : List Char) (h : '\n' ∉ l) :
    splitLines (l ++ '\n' :: r) = l :: splitLines r := by
  induction l with
  | nil => simp [splitLines]
  | cons c t ih =>
    have hc : c ≠ '\n' := fun hc => h (by simp [hc])
    have ht : '\n' ∉ t := fun hm => h (by simp [hm])
    simp [splitLines, hc, ih ht, consHead]

theorem splitLines_joinLines :
    ∀ (ls : List (List Char)), ls ≠ [] → (∀ l ∈ ls, '\n' ∉ l) →
      splitLines (joinLines ls) = ls
  | [], h, _ => absurd rfl h
  | [l], _, hl => by simp [joinLines, splitLines_single (hl l (by simp))]
  | l :: l' :: ls, _, hl => by
    have h1 : '\n' ∉ l := hl l (by simp)
    have := splitLines_joinLines (l' :: ls) (by simp) (fun x hx => hl x (by simp [hx]))
    simp only [joinLines, splitLines_append_cons _ h1, this]

theorem joinLines_splitLines (s : List Char) : joinLines (splitLines s) = s := by
  induction s with
  | nil => rfl
  | cons c t ih =>
    simp only [splitLines]
    split
    · subst c
      match h : splitLines t with
      | [] => exact absurd h (splitLines_ne_nil t)
      | l :: ls =>
        rw [h] at ih
        simpa [joinLines] using ih
    · match h : splitLines t with
      | [] => exact absurd h (splitLines_ne_nil t)
      | [] :: ls =>
        rw [h] at ih
        cases ls with
        | nil => simpa [consHead, joinLines] using ih
        | cons l' ls' => simpa [consHead, joinLines] using ih
      | (x :: l) :: ls =>
        rw [h] at ih
        cases ls with
        | nil => simpa [consHead, joinLines] using ih
        | cons l' ls' => simpa [consHead, joinLines] using ih

theorem splitLines_no_newline (s : List Char) : ∀ l ∈ splitLines s, '\n' ∉ l := by
  induction s with
  | nil => simp [splitLines]
  | cons c t ih =>
    simp only [splitLines]
    split
    · simpa using ih
    · match h : splitLines t with
      | [] => exact absurd h (splitLines_ne_nil t)
      | l :: ls =>
        rw [h] at ih
        rename_i hcn
        intro x hx
        simp only [consHead, List.mem_cons] at hx
        rcases hx with hx | hx
        · subst hx
          intro hmem
          rcases List.mem_cons.mp hmem with hc | hc
          · exact hcn hc.symm
          · exact ih l (by simp) hc
        · exact ih x (by simp [hx])

/-! ## Lemmas about the matcher steps -/

theorem expectLit_append (lit r : List Char) : expectLit lit (lit ++ r) = some r := by
  have hp : lit.isPrefixOf (lit ++ r) = true :=
    List.isPrefixOf_iff_prefix.mpr (List.prefix_append lit r)
  simp [expectLit, hp]

theorem expectLit_eq_some {lit s r : List Char} (h : expectLit lit s = some r) :
    s = lit ++ r := by
  simp only [expectLit] at h
  split at h
  · rename_i hp
    obtain ⟨t, ht⟩ := List.isPrefixOf_iff_prefix.mp hp
    subst ht
    simp only [List.drop_left, Option.some.injEq] at h
    rw [h]
  · exact absurd h (by simp)

theorem takeWhile_run {p : Char → Bool} :
    ∀ (l : List Char) (c : Char) (r : List Char), (∀ x ∈ l, p x = true) → p c = false →
      (l ++ c :: r).takeWhile p = l ∧ (l ++ c :: r).dropWhile p = c :: r
  | [], c, r, _, hc => by simp [List.takeWhile_cons, List.dropWhile_cons, hc]
  | a :: l, c, r, hl, hc => by
    have ha : p a = true := hl a (by simp)
    have := takeWhile_run l c r (fun x hx => hl x (by simp [hx])) hc
    simp [List.takeWhile_cons, List.dropWhile_cons, ha, this.1, this.2]

theorem takeRun1_append_run {p : Char → Bool} (l : List Char) (c : Char) (r : List Char)
    (hl : ∀ x ∈ l, p x = true) (hne : l ≠ []) (hc : p c = false) :
    takeRun1 p (l ++ c :: r) = some (l, c :: r) := by
  have h := takeWhile_run l c r hl hc
  match l, hne with
  | a :: l', _ =>
    simp only [takeRun1, h.1, h.2]

theorem takeRun1_all {p : Char → Bool} (l : List Char)
    (hl : ∀ x ∈ l, p x = true) (hne : l ≠ []) :
    takeRun1 p l = some (l, []) := by
  have ht : l.takeWhile p = l := List.takeWhile_eq_self_iff.mpr (by simpa using hl)
  have hd : l.dropWhile p = [] := List.dropWhile_eq_nil_iff.mpr (by simpa using hl)
  match l, hne with
  | a :: l', _ => simp only [takeRun1, ht, hd]

theorem takeRun1_eq_some {p : Char → Bool} {s t r : List Char}
    (h : takeRun1 p s = some (t, r)) :
    t ≠ [] ∧ (∀ x ∈ t, p x = true) ∧ s = t ++ r := by
  simp only [takeRun1] at h
  match ht : s.takeWhile p with
  | [] => rw [ht] at h; exact absurd h (by simp)
  | a :: t' =>
    rw [ht] at h
    simp only [Option.some.injEq, Prod.mk.injEq] at h
    obtain ⟨h1, h2⟩ := h
    refine ⟨h1 ▸ List.cons_ne_nil a t', fun x hx => ?_, ?_⟩
    · rw [← h1, ← ht] at hx
      exact List.mem_takeWhile_imp hx
    · rw [← h1, ← h2, ← ht, List.takeWhile_append_dropWhile]

/-! ## Rendering a mapping as grammar-conformant response text

These definitions are the "rendering" side of the round-trip property:
a header line matching the header grammar for a given table name, and
one row per entry matching the row grammar, carrying the given store
type and the decimal text of the entry's rate.  They are written as
explicit character lists so that the matching proofs can step through
them; as text they read
`0x0: key=<ip> use=0 exp=0 shard=0 <st>(60000)=<t>` and
`# table: <name>, type: ip, size:1048576, used:0`. -/

def rowAfterStore (t : List Char) : List Char :=
  '(' :: '6' :: '0' :: '0' :: '0' :: '0' :: ')' :: '=' :: t

def rowAfterIp (st t : List Char) : List Char :=
  ' ' :: 'u' :: 's' :: 'e' :: '=' :: '0' ::
  ' ' :: 'e' :: 'x' :: 'p' :: '=' :: '0' ::
  ' ' :: 's' :: 'h' :: 'a' :: 'r' :: 'd' :: '=' :: '0' ::
  ' ' :: (st ++ rowAfterStore t)

def renderRowTxt (ip st t : List Char) : List Char :=
  '0' :: 'x' :: '0' :: ':' :: ' ' :: 'k' :: 'e' :: 'y' :: '=' :: (ip ++ rowAfterIp st t)

def headerAfterName : List Char :=
  ',' :: ' ' :: 't' :: 'y' :: 'p' :: 'e' :: ':' :: ' ' :: 'i' :: 'p' :: ',' ::
  " size:1048576, used:0".data

def renderHeader (name : List Char) : List Char :=
  '#' :: ' ' :: 't' :: 'a' :: 'b' :: 'l' :: 'e' :: ':' :: ' ' :: (name ++ headerAfterName)

def renderResponse (name st : List Char) (M : List (List Char × Int)) : List Char :=
  joinLines (renderHeader name :: M.map fun p => renderRowTxt p.1 st (natDigits p.2.toNat))

/-! ## Matching the rendered text -/

theorem not_space_of_nameChar {x : Char} (h : isNameChar x = true) : isSpaceGo x = false := by
  cases hsp : isSpaceGo x with
  | false => rfl
  | true =>
    exfalso
    simp only [isSpaceGo, Bool.or_eq_true, decide_eq_true_eq] at hsp
    rcases hsp with (((h1 | h1) | h1) | h1) | h1 <;> (subst h1; exact absurd h (by decide))

theorem gpcOpt_store :
    ∀ (st : List Char), (∀ x ∈ st, isStoreChar x = true) → ∀ r,
      gpcOpt (' ' :: (st ++ '(' :: r)) = none := by
  intro st hst r
  match st, hst with
  | [], _ => rfl
  | [a], h => simp [gpcOpt, expectLit, List.isPrefixOf]
  | [a, b], h => simp [gpcOpt, expectLit, List.isPrefixOf]
  | a :: b :: c :: st', h =>
    rcases eq_or_ne a 'g' with ha | ha
    · subst ha
      rcases eq_or_ne b 'p' with hb | hb
      · subst hb
        rcases eq_or_ne c 'c' with hc | hc
        · subst hc
          cases st' with
          | nil => rfl
          | cons d st2 =>
            by_cases hdd : isDigitCh d = true
            · cases st2 with
              | nil => simp [gpcOpt, expectLit, List.isPrefixOf, hdd]
              | cons e st3 =>
                have he : isStoreChar e = true := h e (by simp)
                have hene : ('=' == e) = false := by
                  rcases eq_or_ne e '=' with he2 | he2
                  · subst he2; exact absurd he (by decide)
                  · exact beq_eq_false_iff_ne.mpr (Ne.symm he2)
                simp [gpcOpt, expectLit, List.isPrefixOf, hdd, hene]
            · simp [gpcOpt, expectLit, List.isPrefixOf, hdd]
        · have : ('c' == c) = false := beq_eq_false_iff_ne.mpr (Ne.symm hc)
          simp [gpcOpt, expectLit, List.isPrefixOf, this]
      · have : ('p' == b) = false := beq_eq_false_iff_ne.mpr (Ne.symm hb)
        simp [gpcOpt, expectLit, List.isPrefixOf, this]
    · have : ('g' == a) = false := beq_eq_false_iff_ne.mpr (Ne.symm ha)
      simp [gpcOpt, expectLit, List.isPrefixOf, this]

theorem rowTail_render {st t : List Char}
    (hst : ∀ x ∈ st, isStoreChar x = true) (hstne : st ≠ [])
    (ht : ∀ x ∈ t, isDigitCh x = true) (htne : t ≠ []) :
    rowTail (' ' :: (st ++ rowAfterStore t)) = some (st, t) := by
  have e1 : expectLit " ".data (' ' :: (st ++ rowAfterStore t)) =
      some (st ++ rowAfterStore t) :=
    expectLit_append " ".data (st ++ rowAfterStore t)
  have e2 : takeRun1 isStoreChar (st ++ rowAfterStore t) = some (st, rowAfterStore t) :=
    takeRun1_append_run st '(' ('6' :: '0' :: '0' :: '0' :: '0' :: ')' :: '=' :: t)
      hst hstne (by decide)
  have e3 : expectLit "(".data (rowAfterStore t) =
      some ('6' :: '0' :: '0' :: '0' :: '0' :: ')' :: '=' :: t) :=
    expectLit_append "(".data ('6' :: '0' :: '0' :: '0' :: '0' :: ')' :: '=' :: t)
  have e4 : takeRun1 isDigitCh ('6' :: '0' :: '0' :: '0' :: '0' :: ')' :: '=' :: t) =
      some (['6', '0', '0', '0', '0'], ')' :: '=' :: t) :=
    takeRun1_append_run ['6', '0', '0', '0', '0'] ')' ('=' :: t)
      (by decide) (by decide) (by decide)
  have e5 : expectLit ")=".data (')' :: '=' :: t) = some t :=
    expectLit_append ")=".data t
  have e6 : takeRun1 isDigitCh t = some (t, []) := takeRun1_all t ht htne
  simp only [rowTail, e1, e2, e3, e4, e5, e6]
  rfl

theorem rowMatch_render {ip st t : List Char}
    (hip : ∀ x ∈ ip, isIpChar x = true) (hipne : ip ≠ [])
    (hst : ∀ x ∈ st, isStoreChar x = true) (hstne : st ≠ [])
    (ht : ∀ x ∈ t, isDigitCh x = true) (htne : t ≠ []) :
    rowMatch (renderRowTxt ip st t) = some (ip, st, t) := by
  have hsp0 : isSpaceGo '0' = false := by decide
  have h0 : (renderRowTxt ip st t).dropWhile isSpaceGo = renderRowTxt ip st t := by
    simp [renderRowTxt, List.dropWhile_cons, hsp0]
  have h1 : expectLit "0x".data (renderRowTxt ip st t) =
      some ('0' :: ':' :: ' ' :: 'k' :: 'e' :: 'y' :: '=' :: (ip ++ rowAfterIp st t)) :=
    expectLit_append "0x".data ('0' :: ':' :: ' ' :: 'k' :: 'e' :: 'y' :: '=' :: (ip ++ rowAfterIp st t))
  have h2 : takeRun1 isAlnumCh ('0' :: ':' :: ' ' :: 'k' :: 'e' :: 'y' :: '=' :: (ip ++ rowAfterIp st t)) =
      some (['0'], ':' :: ' ' :: 'k' :: 'e' :: 'y' :: '=' :: (ip ++ rowAfterIp st t)) :=
    takeRun1_append_run ['0'] ':' (' ' :: 'k' :: 'e' :: 'y' :: '=' :: (ip ++ rowAfterIp st t))
      (by decide) (by decide) (by decide)
  have h3 : expectLit ": key=".data (':' :: ' ' :: 'k' :: 'e' :: 'y' :: '=' :: (ip ++ rowAfterIp st t)) =
      some (ip ++ rowAfterIp st t) :=
    expectLit_append ": key=".data (ip ++ rowAfterIp st t)
  have h4 : takeRun1 isIpChar (ip ++ rowAfterIp st t) = some (ip, rowAfterIp st t) :=
    takeRun1_append_run ip ' '
      ('u' :: 's' :: 'e' :: '=' :: '0' :: ' ' :: 'e' :: 'x' :: 'p' :: '=' :: '0' ::
        ' ' :: 's' :: 'h' :: 'a' :: 'r' :: 'd' :: '=' :: '0' :: ' ' :: (st ++ rowAfterStore t))
      hip hipne (by decide)
  have h5 : expectLit " use=".data (rowAfterIp st t) =
      some ('0' :: ' ' :: 'e' :: 'x' :: 'p' :: '=' :: '0' :: ' ' :: 's' :: 'h' :: 'a' ::
        'r' :: 'd' :: '=' :: '0' :: ' ' :: (st ++ rowAfterStore t)) :=
    expectLit_append " use=".data ('0' :: ' ' :: 'e' :: 'x' :: 'p' :: '=' :: '0' :: ' ' ::
      's' :: 'h' :: 'a' :: 'r' :: 'd' :: '=' :: '0' :: ' ' :: (st ++ rowAfterStore t))
  have h6 : takeRun1 isDigitCh ('0' :: ' ' :: 'e' :: 'x' :: 'p' :: '=' :: '0' :: ' ' ::
        's' :: 'h' :: 'a' :: 'r' :: 'd' :: '=' :: '0' :: ' ' :: (st ++ rowAfterStore t)) =
      some (['0'], ' ' :: 'e' :: 'x' :: 'p' :: '=' :: '0' :: ' ' :: 's' :: 'h' :: 'a' ::
        'r' :: 'd' :: '=' :: '0' :: ' ' :: (st ++ rowAfterStore t)) :=
    takeRun1_append_run ['0'] ' ' ('e' :: 'x' :: 'p' :: '=' :: '0' :: ' ' :: 's' :: 'h' ::
      'a' :: 'r' :: 'd' :: '=' :: '0' :: ' ' :: (st ++ rowAfterStore t))
      (by decide) (by decide) (by decide)
  have h7 : expectLit " exp=".data (' ' :: 'e' :: 'x' :: 'p' :: '=' :: '0' :: ' ' :: 's' ::
        'h' :: 'a' :: 'r' :: 'd' :: '=' :: '0' :: ' ' :: (st ++ rowAfterStore t)) =
      some ('0' :: ' ' :: 's' :: 'h' :: 'a' :: 'r' :: 'd' :: '=' :: '0' :: ' ' ::
        (st ++ rowAfterStore t)) :=
    expectLit_append " exp=".data ('0' :: ' ' :: 's' :: 'h' :: 'a' :: 'r' :: 'd' :: '=' ::
      '0' :: ' ' :: (st ++ rowAfterStore t))
  have h8 : takeRun1 isDigitCh ('0' :: ' ' :: 's' :: 'h' :: 'a' :: 'r' :: 'd' :: '=' ::
        '0' :: ' ' :: (st ++ rowAfterStore t)) =
      some (['0'], ' ' :: 's' :: 'h' :: 'a' :: 'r' :: 'd' :: '=' :: '0' :: ' ' ::
        (st ++ rowAfterStore t)) :=
    takeRun1_append_run ['0'] ' ' ('s' :: 'h' :: 'a' :: 'r' :: 'd' :: '=' :: '0' :: ' ' ::
      (st ++ rowAfterStore t)) (by decide) (by decide) (by decide)
  have h9 : expectLit " shard=".data (' ' :: 's' :: 'h' :: 'a' :: 'r' :: 'd' :: '=' ::
        '0' :: ' ' :: (st ++ rowAfterStore t)) =
      some ('0' :: ' ' :: (st ++ rowAfterStore t)) :=
    expectLit_append " shard=".data ('0' :: ' ' :: (st ++ rowAfterStore t))
  have h10 : takeRun1 isDigitCh ('0' :: ' ' :: (st ++ rowAfterStore t)) =
      some (['0'], ' ' :: (st ++ rowAfterStore t)) :=
    takeRun1_append_run ['0'] ' ' (st ++ rowAfterStore t) (by decide) (by decide) (by decide)
  have h11 : gpcOpt (' ' :: (st ++ rowAfterStore t)) = none :=
    gpcOpt_store st hst ('6' :: '0' :: '0' :: '0' :: '0' :: ')' :: '=' :: t)
  have h12 : rowTail (' ' :: (st ++ rowAfterStore t)) = some (st, t) :=
    rowTail_render hst hstne ht htne
  simp only [rowMatch, h0, h1, h2, h3, h4, h5, h6, h7, h8, h9, h10, h11, h12]

theorem headerCapture_render {name : List Char}
    (hn : ∀ x ∈ name, isNameChar x = true) (hnne : name ≠ []) :
    headerCapture (renderHeader name) = some (name, "ip".data) := by
  have hspSp : isSpaceGo ' ' = true := by decide
  have hspComma : isSpaceGo ',' = false := by decide
  have hspT : isSpaceGo 't' = false := by decide
  have hspI : isSpaceGo 'i' = false := by decide
  have g1 : expectLit "#".data (renderHeader name) =
      some (' ' :: 't' :: 'a' :: 'b' :: 'l' :: 'e' :: ':' :: ' ' :: (name ++ headerAfterName)) :=
    expectLit_append "#".data (' ' :: 't' :: 'a' :: 'b' :: 'l' :: 'e' :: ':' :: ' ' ::
      (name ++ headerAfterName))
  have g2 : takeRun1 isSpaceGo (' ' :: 't' :: 'a' :: 'b' :: 'l' :: 'e' :: ':' :: ' ' ::
        (name ++ headerAfterName)) =
      some ([' '], 't' :: 'a' :: 'b' :: 'l' :: 'e' :: ':' :: ' ' :: (name ++ headerAfterName)) :=
    takeRun1_append_run [' '] 't' ('a' :: 'b' :: 'l' :: 'e' :: ':' :: ' ' ::
      (name ++ headerAfterName)) (by decide) (by decide) (by decide)
  have g3 : expectLit "table:".data ('t' :: 'a' :: 'b' :: 'l' :: 'e' :: ':' :: ' ' ::
        (name ++ headerAfterName)) = some (' ' :: (name ++ headerAfterName)) :=
    expectLit_append "table:".data (' ' :: (name ++ headerAfterName))
  have g4 : (' ' :: (name ++ headerAfterName)).dropWhile isSpaceGo =
      name ++ headerAfterName := by
    cases name with
    | nil => exact absurd rfl hnne
    | cons n0 name' =>
      have hn0 : isSpaceGo n0 = false := not_space_of_nameChar (hn n0 (by simp))
      simp [List.dropWhile_cons, hn0, show isSpaceGo ' ' = true from by decide]
  have g5 : takeRun1 isNameChar (name ++ headerAfterName) = some (name, headerAfterName) :=
    takeRun1_append_run name ',' (' ' :: 't' :: 'y' :: 'p' :: 'e' :: ':' :: ' ' :: 'i' ::
      'p' :: ',' :: " size:1048576, used:0".data) hn hnne (by decide)
  have g6 : headerAfterName.dropWhile isSpaceGo = headerAfterName := by
    simp [headerAfterName, List.dropWhile_cons, hspComma]
  have g7 : expectLit ",".data headerAfterName =
      some (' ' :: 't' :: 'y' :: 'p' :: 'e' :: ':' :: ' ' :: 'i' :: 'p' :: ',' ::
        " size:1048576, used:0".data) :=
    expectLit_append ",".data (' ' :: 't' :: 'y' :: 'p' :: 'e' :: ':' :: ' ' :: 'i' :: 'p' ::
      ',' :: " size:1048576, used:0".data)
  have g8 : (' ' :: 't' :: 'y' :: 'p' :: 'e' :: ':' :: ' ' :: 'i' :: 'p' :: ',' ::
        " size:1048576, used:0".data).dropWhile isSpaceGo =
      't' :: 'y' :: 'p' :: 'e' :: ':' :: ' ' :: 'i' :: 'p' :: ',' ::
        " size:1048576, used:0".data := by
    simp [List.dropWhile_cons, hspSp, hspT]
  have g9 : expectLit "type:".data ('t' :: 'y' :: 'p' :: 'e' :: ':' :: ' ' :: 'i' :: 'p' ::
        ',' :: " size:1048576, used:0".data) =
      some (' ' :: 'i' :: 'p' :: ',' :: " size:1048576, used:0".data) :=
    expectLit_append "type:".data (' ' :: 'i' :: 'p' :: ',' :: " size:1048576, used:0".data)
  have g10 : (' ' :: 'i' :: 'p' :: ',' :: " size:1048576, used:0".data).dropWhile isSpaceGo =
      'i' :: 'p' :: ',' :: " size:1048576, used:0".data := by
    simp [List.dropWhile_cons, hspSp, hspI]
  have g11 : takeRun1 isAlphaCh ('i' :: 'p' :: ',' :: " size:1048576, used:0".data) =
      some (['i', 'p'], ',' :: " size:1048576, used:0".data) :=
    takeRun1_append_run ['i', 'p'] ',' " size:1048576, used:0".data
      (by decide) (by decide) (by decide)
  have g12 : expectLit ",".data (',' :: " size:1048576, used:0".data) =
      some " size:1048576, used:0".data :=
    expectLit_append ",".data " size:1048576, used:0".data
  simp only [headerCapture, g1, g2, g3, g4, g5, g6, g7, g8, g9, g10, g11, g12]

/-- A line whose first character is `#` never matches the row pattern. -/
theorem rowMatch_hash (l : List Char) : rowMatch ('#' :: l) = none := by
  have hd : ('#' :: l).dropWhile isSpaceGo = '#' :: l := by
    simp [List.dropWhile_cons, show isSpaceGo '#' = false from by decide]
  have he : expectLit "0x".data ('#' :: l) = none := by
    simp [expectLit, List.isPrefixOf]
  simp only [rowMatch, hd, he]


/-! ## Decimal digits and `Atoi` lemmas -/

theorem digitChar_isDigit (k : Nat) : isDigitCh (digitChar k) = true := by
  match k with
  | 0 | 1 | 2 | 3 | 4 | 5 | 6 | 7 | 8 | 9 => decide
  | n + 10 => rfl

theorem digitChar_toNat {k : Nat} (h : k < 10) : (digitChar k).toNat = 48 + k := by
  interval_cases k <;> rfl

theorem digitsVal_append_digit (l : List Char) (c : Char) :
    digitsVal (l ++ [c]) = digitsVal l * 10 + (c.toNat - 48) := by
  simp [digitsVal, List.foldl_append]

theorem natDigitsAux_spec :
    ∀ (fuel n : Nat), n < fuel →
      natDigitsAux n fuel ≠ [] ∧ (∀ c ∈ natDigitsAux n fuel, isDigitCh c = true) ∧
        digitsVal (natDigitsAux n fuel) = n := by
  intro fuel
  induction fuel with
  | zero => intro n h; omega
  | succ fuel ih =>
    intro n h
    by_cases h10 : n < 10
    · simp only [natDigitsAux, if_pos h10]
      refine ⟨by simp, ?_, ?_⟩
      · intro c hc
        simp only [List.mem_singleton] at hc
        subst hc
        exact digitChar_isDigit n
      · simp [digitsVal, digitChar_toNat h10]
    · simp only [natDigitsAux, if_neg h10]
      have hdiv : n / 10 < fuel :=
        lt_of_lt_of_le (Nat.div_lt_self (by omega) (by omega)) (by omega)
      obtain ⟨hne, hall, hval⟩ := ih (n / 10) hdiv
      refine ⟨by simp [hne], ?_, ?_⟩
      · intro c hc
        rcases List.mem_append.mp hc with hc | hc
        · exact hall c hc
        · simp only [List.mem_singleton] at hc
          subst hc
          exact digitChar_isDigit (n % 10)
      · rw [digitsVal_append_digit, hval, digitChar_toNat (Nat.mod_lt _ (by omega))]
        omega

theorem natDigits_ne_nil (n : Nat) : natDigits n ≠ [] :=
  (natDigitsAux_spec (n + 1) n (by omega)).1

theorem natDigits_digits (n : Nat) : ∀ c ∈ natDigits n, isDigitCh c = true :=
  (natDigitsAux_spec (n + 1) n (by omega)).2.1

theorem digitsVal_natDigits (n : Nat) : digitsVal (natDigits n) = n :=
  (natDigitsAux_spec (n + 1) n (by omega)).2.2

theorem goAtoi_digits {t : List Char}
    (ht : ∀ c ∈ t, isDigitCh c = true) (htne : t ≠ []) :
    goAtoi t = if digitsVal t < 2 ^ 63 then some ((digitsVal t : Nat) : Int) else none := by
  match t, htne with
  | c :: t', _ =>
    have hc : isDigitCh c = true := ht c (by simp)
    have h1 : c ≠ '-' := by
      intro he; subst he; exact absurd hc (by decide)
    have h2 : c ≠ '+' := by
      intro he; subst he; exact absurd hc (by decide)
    have hall : (c :: t').all isDigitCh = true := List.all_eq_true.mpr ht
    simp [goAtoi, h1, h2, hall]

theorem goAtoi_natDigits {n : Nat} (h : n < 2 ^ 63) :
    goAtoi (natDigits n) = some (n : Int) := by
  rw [goAtoi_digits (natDigits_digits n) (natDigits_ne_nil n), digitsVal_natDigits, if_pos h]

/-! ## Loop lemmas for `parse` -/

theorem parseStep_skip {l : List Char} (exp : List Char) (acc : List (Addr × Int))
    (hm : rowMatch l = none) : parseStep exp l acc = .ok acc := by
  simp [parseStep, hm]

theorem parseLoop_skip {l : List Char} (exp : List Char) (rest : List (List Char))
    (acc : List (Addr × Int)) (hm : rowMatch l = none) :
    parseLoop exp (l :: rest) acc = parseLoop exp rest acc := by
  simp [parseLoop, parseStep_skip exp acc hm]

theorem parseLoop_append (exp : List Char) (xs ys : List (List Char))
    (acc : List (Addr × Int)) :
    parseLoop exp (xs ++ ys) acc =
      match parseLoop exp xs acc with
      | .error e => .error e
      | .ok acc2 => parseLoop exp ys acc2 := by
  induction xs generalizing acc with
  | nil => simp [parseLoop]
  | cons l xs ih =>
    simp only [List.cons_append, parseLoop]
    cases parseStep exp l acc with
    | error e => rfl
    | ok acc2 => exact ih acc2

theorem parseStep_not_empty (exp l : List Char) (acc : List (Addr × Int)) :
    parseStep exp l acc ≠ .error .emptyOrMalformedResponse := by
  unfold parseStep
  cases rowMatch l with
  | none => simp
  | some v =>
    obtain ⟨ip, st, t⟩ := v
    dsimp only
    rcases eq_or_ne st exp with heq | hne
    · rw [if_pos heq]
      cases goParseAddr ip with
      | none => simp
      | some a =>
        cases goAtoi t with
        | none => simp
        | some r => by_cases h2 : hasKey a acc = true <;> simp [h2]
    · rw [if_neg hne]
      simp

theorem parseLoop_not_empty (exp : List Char) (ls : List (List Char))
    (acc : List (Addr × Int)) :
    parseLoop exp ls acc ≠ .error .emptyOrMalformedResponse := by
  induction ls generalizing acc with
  | nil => simp [parseLoop]
  | cons l ls ih =>
    simp only [parseLoop]
    cases hs : parseStep exp l acc with
    | error e =>
      intro hcontra
      simp only [Except.error.injEq] at hcontra
      subst hcontra
      exact parseStep_not_empty exp l acc hs
    | ok acc2 => exact ih acc2

theorem hasKey_append (a : Addr) (acc : List (Addr × Int)) (b : Addr) (r : Int) :
    hasKey a (acc ++ [(b, r)]) = (hasKey a acc || decide (b = a)) := by
  simp [hasKey, List.any_append]

theorem parseStep_keys_mono {exp l : List Char} {acc acc2 : List (Addr × Int)}
    (h : parseStep exp l acc = .ok acc2) {a : Addr} (ha : hasKey a acc = true) :
    hasKey a acc2 = true := by
  unfold parseStep at h
  cases hrm : rowMatch l with
  | none =>
    rw [hrm] at h
    simp only [Except.ok.injEq] at h
    rwa [← h]
  | some v =>
    obtain ⟨ip, st, t⟩ := v
    rw [hrm] at h
    dsimp only at h
    rcases eq_or_ne st exp with heq | hne
    · rw [if_pos heq] at h
      cases hpa : goParseAddr ip with
      | none => rw [hpa] at h; exact absurd h (by simp)
      | some b =>
        rw [hpa] at h
        cases hat : goAtoi t with
        | none => rw [hat] at h; exact absurd h (by simp)
        | some r =>
          rw [hat] at h
          dsimp only at h
          by_cases h2 : hasKey b acc = true
          · rw [if_pos h2] at h; exact absurd h (by simp)
          · rw [if_neg h2] at h
            simp only [Except.ok.injEq] at h
            rw [← h, hasKey_append, ha, Bool.true_or]
    · rw [if_neg hne] at h; exact absurd h (by simp)

theorem parseLoop_keys_mono {exp : List Char} {ls : List (List Char)}
    {acc out : List (Addr × Int)} (h : parseLoop exp ls acc = .ok out)
    {a : Addr} (ha : hasKey a acc = true) : hasKey a out = true := by
  induction ls generalizing acc with
  | nil =>
    simp only [parseLoop, Except.ok.injEq] at h
    rwa [← h]
  | cons l ls ih =>
    simp only [parseLoop] at h
    cases hs : parseStep exp l acc with
    | error e => rw [hs] at h; exact absurd h (by simp)
    | ok acc2 =>
      rw [hs] at h
      exact ih h (parseStep_keys_mono hs ha)

theorem parseStep_inserts {exp l ip st t : List Char} {acc acc2 : List (Addr × Int)}
    {a : Addr} (h : parseStep exp l acc = .ok acc2)
    (hm : rowMatch l = some (ip, st, t)) (hip : goParseAddr ip = some a) :
    hasKey a acc2 = true := by
  unfold parseStep at h
  rw [hm] at h
  dsimp only at h
  rcases eq_or_ne st exp with heq | hne
  · rw [if_pos heq, hip] at h
    cases hat : goAtoi t with
    | none => rw [hat] at h; exact absurd h (by simp)
    | some r =>
      rw [hat] at h
      dsimp only at h
      by_cases h2 : hasKey a acc = true
      · rw [if_pos h2] at h; exact absurd h (by simp)
      · rw [if_neg h2] at h
        simp only [Except.ok.injEq] at h
        rw [← h, hasKey_append]
        simp
  · rw [if_neg hne] at h; exact absurd h (by simp)

theorem parseLoop_mem_key {exp : List Char} {ls : List (List Char)}
    {acc out : List (Addr × Int)} (h : parseLoop exp ls acc = .ok out)
    {l ip st t : List Char} {a : Addr} (hl : l ∈ ls)
    (hm : rowMatch l = some (ip, st, t)) (hip : goParseAddr ip = some a) :
    hasKey a out = true := by
  induction ls generalizing acc with
  | nil => exact absurd hl (by simp)
  | cons l' ls ih =>
    simp only [parseLoop] at h
    cases hs : parseStep exp l' acc with
    | error e => rw [hs] at h; exact absurd h (by simp)
    | ok acc2 =>
      rw [hs] at h
      rcases List.mem_cons.mp hl with he | hmem
      · subst he
        exact parseLoop_keys_mono h (parseStep_inserts hs hm hip)
      · exact ih h hmem

/-! ## Unfolding `parse` -/

theorem parse_nil (exp : List Char) : parse [] exp = .error .emptyOrMalformedResponse := rfl

theorem parse_short {r : List Char} (exp : List Char) (hne : r ≠ [])
    (h2 : (splitLines r).length < 2) : parse r exp = .ok [] := by
  simp [parse, hne, h2]

theorem parse_eq_loop {r : List Char} (exp : List Char) (hne : r ≠ [])
    (h2 : 2 ≤ (splitLines r).length) :
    parse r exp = parseLoop exp (splitLines r) [] := by
  simp [parse, hne, Nat.not_lt.mpr h2]

/-! ## Newline-freedom of rendered lines -/

theorem renderHeader_no_nl {name : List Char}
    (hn : ∀ x ∈ name, isNameChar x = true) : '\n' ∉ renderHeader name := by
  intro hm
  have hsplit : renderHeader name =
      ['#', ' ', 't', 'a', 'b', 'l', 'e', ':', ' '] ++ name ++ headerAfterName := by
    simp [renderHeader, List.cons_append, List.nil_append, List.append_assoc]
  rw [hsplit] at hm
  rcases List.mem_append.mp hm with hm | hm
  · rcases List.mem_append.mp hm with hm | hm
    · exact absurd hm (by decide)
    · exact absurd (hn _ hm) (by decide)
  · exact absurd hm (by decide)

theorem renderRowTxt_no_nl {ip st t : List Char}
    (hip : ∀ x ∈ ip, isIpChar x = true) (hst : ∀ x ∈ st, isStoreChar x = true)
    (ht : ∀ x ∈ t, isDigitCh x = true) : '\n' ∉ renderRowTxt ip st t := by
  intro hm
  have hsplit : renderRowTxt ip st t =
      ['0', 'x', '0', ':', ' ', 'k', 'e', 'y', '='] ++
        (ip ++ ([' ', 'u', 's', 'e', '=', '0', ' ', 'e', 'x', 'p', '=', '0', ' ',
          's', 'h', 'a', 'r', 'd', '=', '0', ' '] ++
          (st ++ (['(', '6', '0', '0', '0', '0', ')', '='] ++ t)))) := by
    simp [renderRowTxt, rowAfterIp, rowAfterStore, List.cons_append, List.nil_append,
      List.append_assoc]
  rw [hsplit] at hm
  rcases List.mem_append.mp hm with hm | hm
  · exact absurd hm (by decide)
  rcases List.mem_append.mp hm with hm | hm
  · exact absurd (hip _ hm) (by decide)
  rcases List.mem_append.mp hm with hm | hm
  · exact absurd hm (by decide)
  rcases List.mem_append.mp hm with hm | hm
  · exact absurd (hst _ hm) (by decide)
  rcases List.mem_append.mp hm with hm | hm
  · exact absurd hm (by decide)
  · exact absurd (ht _ hm) (by decide)

/-! ## Keys of the accumulated mapping -/

theorem hasKey_iff {a : Addr} {m : List (Addr × Int)} :
    hasKey a m = true ↔ ∃ q ∈ m, q.1 = a := by
  simp [hasKey, List.any_eq_true]

/-- The loop of `parse` over rendered rows accumulates exactly the
rendered mapping, provided every key is the normal textual form of an
address, the keys are pairwise distinct, every value fits Go's `int`,
and no key collides with the accumulator. -/
theorem parseLoop_render (st : List Char)
    (hstc : ∀ x ∈ st, isStoreChar x = true) (hstne : st ≠ []) :
    ∀ (M : List (List Char × Int)) (acc : List (Addr × Int)),
      (∀ p ∈ M, (∃ a, goParseAddr p.1 = some a ∧ addrString a = p.1) ∧
        p.1 ≠ [] ∧ (∀ c ∈ p.1, isIpChar c = true) ∧ 0 ≤ p.2 ∧ p.2 < 2 ^ 63) →
      M.Pairwise (fun p q => p.1 ≠ q.1) →
      (∀ q ∈ acc, addrString q.1 ∉ M.map Prod.fst) →
      ∃ ents,
        parseLoop st (M.map fun p => renderRowTxt p.1 st (natDigits p.2.toNat)) acc =
          .ok (acc ++ ents) ∧
        ents.map (fun q => (addrString q.1, q.2)) = M
  | [], acc, _, _, _ => ⟨[], by simp [parseLoop], rfl⟩
  | p :: M', acc, hM, hdist, hacc => by
    obtain ⟨⟨a, hpa, hstr⟩, hipne, hipc, hge, hlt⟩ := hM p (by simp)
    have hrm : rowMatch (renderRowTxt p.1 st (natDigits p.2.toNat)) =
        some (p.1, st, natDigits p.2.toNat) :=
      rowMatch_render hipc hipne hstc hstne (natDigits_digits _) (natDigits_ne_nil _)
    have hat : goAtoi (natDigits p.2.toNat) = some p.2 := by
      rw [goAtoi_natDigits (show p.2.toNat < 2 ^ 63 by omega)]
      rw [Int.toNat_of_nonneg hge]
    have hkey : ¬ hasKey a acc = true := by
      intro hk
      obtain ⟨q, hq, hqa⟩ := hasKey_iff.mp hk
      have := hacc q hq
      rw [hqa, hstr] at this
      exact this (by simp)
    have hstep : parseStep st (renderRowTxt p.1 st (natDigits p.2.toNat)) acc =
        .ok (acc ++ [(a, p.2)]) := by
      unfold parseStep
      rw [hrm]
      dsimp only
      rw [if_pos rfl, hpa]
      dsimp only
      rw [hat]
      dsimp only
      rw [if_neg hkey]
    have hdist' : M'.Pairwise (fun p q => p.1 ≠ q.1) := (List.pairwise_cons.mp hdist).2
    have hacc' : ∀ q ∈ acc ++ [(a, p.2)], addrString q.1 ∉ M'.map Prod.fst := by
      intro q hq
      rcases List.mem_append.mp hq with hq | hq
      · intro hmem
        exact hacc q hq (by simp [hmem])
      · simp only [List.mem_singleton] at hq
        subst hq
        rw [hstr]
        intro hmem
        obtain ⟨r, hr, hrfst⟩ := List.mem_map.mp hmem
        exact (List.pairwise_cons.mp hdist).1 r hr hrfst.symm
    obtain ⟨ents', hloop, hmap⟩ :=
      parseLoop_render st hstc hstne M' (acc ++ [(a, p.2)])
        (fun q hq => hM q (by simp [hq])) hdist' hacc'
    refine ⟨(a, p.2) :: ents', ?_, ?_⟩
    · simp only [List.map_cons, parseLoop, hstep, hloop]
      rw [List.append_assoc]
      rfl
    · simp only [List.map_cons, hmap, hstr]

/-! ## Normal address texts -/

/-- A normal textual form of an address: text the address parser
accepts and prints back verbatim. -/
def normalizedAddrTxt (s : List Char) : Prop :=
  (goParseAddr s).map addrString = some s

instance : DecidablePred normalizedAddrTxt := fun s =>
  inferInstanceAs (Decidable ((goParseAddr s).map addrString = some s))

/-! ## The claims -/

/-- C1 (amended): for any finite mapping from distinct normalized IP
address texts to non-negative integers below `2^63`, rendering it as
grammar-conformant response text — a matching header line for a fixed
table name followed by one grammar-conformant row per entry carrying a
fixed store type — and parsing that text with the same store type
succeeds and returns exactly the mapping. -/
theorem claim_C1 (name st : List Char) (M : List (List Char × Int))
    (hname : name ≠ []) (hnamec : ∀ x ∈ name, isNameChar x = true)
    (hstne : st ≠ []) (hstc : ∀ x ∈ st, isStoreChar x = true)
    (hkeys : ∀ p ∈ M, normalizedAddrTxt p.1 ∧ p.1 ≠ [] ∧ ∀ c ∈ p.1, isIpChar c = true)
    (hvals : ∀ p ∈ M, 0 ≤ p.2 ∧ p.2 < 2 ^ 63)
    (hdist : M.Pairwise (fun p q => p.1 ≠ q.1)) :
    headerCapture (renderHeader name) = some (name, "ip".data) ∧
    ∃ r, parse (renderResponse name st M) st = .ok r ∧
      r.map (fun q => (addrString q.1, q.2)) = M := by
  refine ⟨headerCapture_render hnamec hname, ?_⟩
  have hMpack : ∀ p ∈ M, (∃ a, goParseAddr p.1 = some a ∧ addrString a = p.1) ∧
      p.1 ≠ [] ∧ (∀ c ∈ p.1, isIpChar c = true) ∧ 0 ≤ p.2 ∧ p.2 < 2 ^ 63 := by
    intro q hq
    obtain ⟨hnorm, hne', hipc⟩ := hkeys q hq
    obtain ⟨a, ha1, ha2⟩ := Option.map_eq_some'.mp hnorm
    exact ⟨⟨a, ha1, ha2⟩, hne', hipc, (hvals q hq).1, (hvals q hq).2⟩
  cases M with
  | nil =>
    have hone : splitLines (renderResponse name st []) = [renderHeader name] :=
      splitLines_single (renderHeader_no_nl hnamec)
    have hne : renderResponse name st [] ≠ [] := by
      show joinLines [renderHeader name] ≠ []
      show renderHeader name ≠ []
      simp [renderHeader]
    refine ⟨[], ?_, rfl⟩
    exact parse_short st hne (by rw [hone]; simp)
  | cons p M' =>
    have hrowsnl : ∀ l ∈ (p :: M').map fun q => renderRowTxt q.1 st (natDigits q.2.toNat),
        '\n' ∉ l := by
      intro l hl
      obtain ⟨q, hq, hql⟩ := List.mem_map.mp hl
      rw [← hql]
      exact renderRowTxt_no_nl (hkeys q hq).2.2 hstc (natDigits_digits _)
    have hlines : splitLines (renderResponse name st (p :: M')) =
        renderHeader name :: (p :: M').map fun q => renderRowTxt q.1 st (natDigits q.2.toNat) := by
      refine splitLines_joinLines _ (by simp) ?_
      intro l hl
      rcases List.mem_cons.mp hl with hl | hl
      · rw [hl]; exact renderHeader_no_nl hnamec
      · exact hrowsnl l hl
    have hne : renderResponse name st (p :: M') ≠ [] := by
      intro h0
      rw [h0, splitLines_nil] at hlines
      have hlen := congrArg List.length hlines
      simp at hlen
    have h2 : 2 ≤ (splitLines (renderResponse name st (p :: M'))).length := by
      rw [hlines]
      simp
    rw [parse_eq_loop st hne h2, hlines]
    have hskip : rowMatch (renderHeader name) = none :=
      rowMatch_hash (' ' :: 't' :: 'a' :: 'b' :: 'l' :: 'e' :: ':' :: ' ' ::
        (name ++ headerAfterName))
    rw [parseLoop_skip st _ [] hskip]
    obtain ⟨ents, hloop, hmap⟩ :=
      parseLoop_render st hstc hstne (p :: M') [] hMpack hdist (by simp)
    exact ⟨ents, by simpa using hloop, hmap⟩

def witnessM : List (List Char × Int) :=
  [("1.32.20.122".data, 1), ("1.39.115.67".data, 2321)]

/-- Witness for C1 at a concrete two-entry mapping. -/
theorem claim_C1_witness :
    ("table_requests_limiter_src_ip".data ≠ ([] : List Char)) ∧
    (∀ x ∈ "table_requests_limiter_src_ip".data, isNameChar x = true) ∧
    ("http_req_rate".data ≠ ([] : List Char)) ∧
    (∀ x ∈ "http_req_rate".data, isStoreChar x = true) ∧
    (∀ p ∈ witnessM, normalizedAddrTxt p.1 ∧ p.1 ≠ [] ∧ ∀ c ∈ p.1, isIpChar c = true) ∧
    (∀ p ∈ witnessM, 0 ≤ p.2 ∧ p.2 < 2 ^ 63) ∧
    witnessM.Pairwise (fun p q => p.1 ≠ q.1) ∧
    (headerCapture (renderHeader "table_requests_limiter_src_ip".data) =
        some ("table_requests_limiter_src_ip".data, "ip".data) ∧
      ∃ r, parse (renderResponse "table_requests_limiter_src_ip".data
          "http_req_rate".data witnessM) "http_req_rate".data = .ok r ∧
        r.map (fun q => (addrString q.1, q.2)) = witnessM) :=
  ⟨by decide, by decide, by decide, by decide, by decide, by decide, by decide,
    claim_C1 "table_requests_limiter_src_ip".data "http_req_rate".data witnessM
      (by decide) (by decide) (by decide) (by decide) (by decide) (by decide) (by decide)⟩

/-- Counterexample to C1 as frozen: a one-entry mapping whose key is a
normalized address and whose value is the non-negative integer `2^63`
renders to grammar-conformant text, yet parsing it fails (with the
invalid-rate error coming from `strconv.Atoi`'s range check) instead of
returning the mapping. -/
theorem claim_C1_counterexample :
    normalizedAddrTxt "1.2.3.4".data ∧
    (0 : Int) ≤ 9223372036854775808 ∧
    parse (renderResponse "t".data "http_req_rate".data
        [("1.2.3.4".data, (9223372036854775808 : Int))]) "http_req_rate".data =
      .error (.invalidRate (natDigits 9223372036854775808)) := by
  refine ⟨by decide, by decide, ?_⟩
  decide

/-- C2: the literal two-row scenario parses to the mapping
`{1.32.20.122 ↦ 1, 1.39.115.67 ↦ 2321}` (keys shown with their
normal textual forms). -/
theorem claim_C2 :
    parse ("# table: table_requests_limiter_src_ip, type: ip, size:1048576, used:11597\n0x7f6d48298b70: key=1.32.20.122 use=0 exp=26834 shard=0 http_req_rate(60000)=1\n0x55e0d8f5cc20: key=1.39.115.67 use=0 exp=44496 shard=0 http_req_rate(60000)=2321").data
        "http_req_rate".data =
      .ok [(AddrFrom4 1 32 20 122, 1), (AddrFrom4 1 39 115 67, 2321)] ∧
    addrString (AddrFrom4 1 32 20 122) = "1.32.20.122".data ∧
    addrString (AddrFrom4 1 39 115 67) = "1.39.115.67".data := by
  refine ⟨?_, by decide, by decide⟩
  decide

/-- C3 (amended): a matched line carrying a store-type token different
from the expected one aborts the whole parse with `StoreTypeMismatch`,
discarding the entries accumulated from the earlier lines, provided the
response has at least two lines and the earlier lines were processed
without a fatal condition of their own. -/
theorem claim_C3 (r exp : List Char) (pre post : List (List Char))
    (l ip st t : List Char) (acc : List (Addr × Int))
    (hsplit : splitLines r = pre ++ l :: post)
    (h2 : 2 ≤ (splitLines r).length)
    (hm : rowMatch l = some (ip, st, t)) (hne : st ≠ exp)
    (hpre : parseLoop exp pre [] = .ok acc) :
    parse r exp = .error (.storeTypeMismatch exp st) := by
  have hrne : r ≠ [] := by
    intro h0
    rw [h0, splitLines_nil] at h2
    simp at h2
  rw [parse_eq_loop exp hrne h2, hsplit, parseLoop_append, hpre]
  dsimp only
  have hstep : parseStep exp l acc = .error (.storeTypeMismatch exp st) := by
    unfold parseStep
    rw [hm]
    dsimp only
    rw [if_neg hne]
  simp [parseLoop, hstep]

/-- Witness for C3: a clean first data row followed by a row with store
type `conn_rate` when `http_req_rate` was requested. -/
theorem claim_C3_witness :
    splitLines ("# h\n0x0: key=5.6.7.8 use=0 exp=0 shard=0 http_req_rate(60000)=9\n0x1: key=1.2.3.4 use=0 exp=0 shard=0 conn_rate(60000)=5").data =
      [("# h").data, ("0x0: key=5.6.7.8 use=0 exp=0 shard=0 http_req_rate(60000)=9").data] ++
        ("0x1: key=1.2.3.4 use=0 exp=0 shard=0 conn_rate(60000)=5").data :: [] ∧
    rowMatch ("0x1: key=1.2.3.4 use=0 exp=0 shard=0 conn_rate(60000)=5").data =
      some ("1.2.3.4".data, "conn_rate".data, "5".data) ∧
    "conn_rate".data ≠ "http_req_rate".data ∧
    parseLoop "http_req_rate".data
      [("# h").data, ("0x0: key=5.6.7.8 use=0 exp=0 shard=0 http_req_rate(60000)=9").data] [] =
      .ok [(AddrFrom4 5 6 7 8, 9)] ∧
    parse ("# h\n0x0: key=5.6.7.8 use=0 exp=0 shard=0 http_req_rate(60000)=9\n0x1: key=1.2.3.4 use=0 exp=0 shard=0 conn_rate(60000)=5").data
        "http_req_rate".data =
      .error (.storeTypeMismatch "http_req_rate".data "conn_rate".data) :=
  ⟨by decide, by decide, by decide, by decide,
    claim_C3 _ "http_req_rate".data
      [("# h").data, ("0x0: key=5.6.7.8 use=0 exp=0 shard=0 http_req_rate(60000)=9").data] []
      ("0x1: key=1.2.3.4 use=0 exp=0 shard=0 conn_rate(60000)=5").data
      "1.2.3.4".data "conn_rate".data "5".data [(AddrFrom4 5 6 7 8, 9)]
      (by decide) (by decide) (by decide) (by decide) (by decide)⟩

/-- Counterexample to C3 as frozen.  Two instances: a single-line
response whose only line matches the row grammar with a mismatched
store type, on which `parse` succeeds with an empty mapping instead of
failing; and a two-line response where an earlier matched row has an
unparseable address, on which `parse` fails with the invalid-address
error rather than `StoreTypeMismatch` although a later matched row
carries a mismatched store type. -/
theorem claim_C3_counterexample :
    (rowMatch ("0x0: key=1.2.3.4 use=0 exp=0 shard=0 conn_rate(60000)=5").data =
        some ("1.2.3.4".data, "conn_rate".data, "5".data) ∧
      "conn_rate".data ≠ "http_req_rate".data ∧
      parse ("0x0: key=1.2.3.4 use=0 exp=0 shard=0 conn_rate(60000)=5").data
          "http_req_rate".data = .ok []) ∧
    (rowMatch ("0x1: key=1.2.3.4 use=0 exp=0 shard=0 conn_rate(60000)=5").data =
        some ("1.2.3.4".data, "conn_rate".data, "5".data) ∧
      parse ("0x0: key=1.2.3.999 use=0 exp=0 shard=0 http_req_rate(60000)=5\n0x1: key=1.2.3.4 use=0 exp=0 shard=0 conn_rate(60000)=5").data
          "http_req_rate".data = .error (.invalidAddress "1.2.3.999".data)) := by
  refine ⟨⟨by decide, by decide, ?_⟩, by decide, ?_⟩ <;> decide

/-- C4 (amended): when an earlier matched row was accepted with address
`a` and a later matched row with the expected store type, a convertible
rate, and the same parsed address `a` is reached, the whole parse
aborts with `DuplicateKey`, provided the response has at least two
lines and the earlier lines were processed without a fatal condition. -/
theorem claim_C4 (r exp : List Char) (pre post : List (List Char))
    (l l' ip ip' st st' t t' : List Char) (a : Addr) (v : Int)
    (acc : List (Addr × Int))
    (hsplit : splitLines r = pre ++ l :: post)
    (h2 : 2 ≤ (splitLines r).length)
    (hl' : l' ∈ pre) (hm' : rowMatch l' = some (ip', st', t'))
    (hip' : goParseAddr ip' = some a)
    (hm : rowMatch l = some (ip, st, t)) (hst : st = exp)
    (hip : goParseAddr ip = some a) (ht : goAtoi t = some v)
    (hpre : parseLoop exp pre [] = .ok acc) :
    parse r exp = .error (.duplicateKey a) := by
  have hkey : hasKey a acc = true := parseLoop_mem_key hpre hl' hm' hip'
  have hrne : r ≠ [] := by
    intro h0
    rw [h0, splitLines_nil] at h2
    simp at h2
  rw [parse_eq_loop exp hrne h2, hsplit, parseLoop_append, hpre]
  dsimp only
  have hstep : parseStep exp l acc = .error (.duplicateKey a) := by
    unfold parseStep
    rw [hm]
    dsimp only
    rw [if_pos hst, hip]
    dsimp only
    rw [ht]
    dsimp only
    rw [if_pos hkey]
  simp [parseLoop, hstep]

/-- Witness for C4: two grammar-conformant rows for the same address. -/
theorem claim_C4_witness :
    rowMatch ("0x0: key=1.2.3.4 use=0 exp=0 shard=0 http_req_rate(60000)=5").data =
      some ("1.2.3.4".data, "http_req_rate".data, "5".data) ∧
    rowMatch ("0x1: key=1.2.3.4 use=0 exp=0 shard=0 http_req_rate(60000)=6").data =
      some ("1.2.3.4".data, "http_req_rate".data, "6".data) ∧
    goParseAddr "1.2.3.4".data = some (AddrFrom4 1 2 3 4) ∧
    parse ("# h\n0x0: key=1.2.3.4 use=0 exp=0 shard=0 http_req_rate(60000)=5\n0x1: key=1.2.3.4 use=0 exp=0 shard=0 http_req_rate(60000)=6").data
        "http_req_rate".data = .error (.duplicateKey (AddrFrom4 1 2 3 4)) :=
  ⟨by decide, by decide, by decide,
    claim_C4 _ "http_req_rate".data
      [("# h").data, ("0x0: key=1.2.3.4 use=0 exp=0 shard=0 http_req_rate(60000)=5").data] []
      ("0x1: key=1.2.3.4 use=0 exp=0 shard=0 http_req_rate(60000)=6").data
      ("0x0: key=1.2.3.4 use=0 exp=0 shard=0 http_req_rate(60000)=5").data
      "1.2.3.4".data "1.2.3.4".data "http_req_rate".data "http_req_rate".data
      "6".data "5".data (AddrFrom4 1 2 3 4) 6 [(AddrFrom4 1 2 3 4, 5)]
      (by decide) (by decide) (by decide) (by decide) (by decide) (by decide) (by decide)
      (by decide) (by decide) (by decide)⟩

/-- Counterexample to C4 as frozen: two matched rows with the expected
store type and the same parsed address, yet the whole parse fails with
the invalid-rate error instead of `DuplicateKey`, because the second
row's rate token exceeds the 64-bit integer range and the rate
conversion is checked before the duplicate-key check. -/
theorem claim_C4_counterexample :
    rowMatch ("0x0: key=1.2.3.4 use=0 exp=0 shard=0 http_req_rate(60000)=5").data =
      some ("1.2.3.4".data, "http_req_rate".data, "5".data) ∧
    rowMatch ("0x1: key=1.2.3.4 use=0 exp=0 shard=0 http_req_rate(60000)=9223372036854775808").data =
      some ("1.2.3.4".data, "http_req_rate".data, "9223372036854775808".data) ∧
    parse ("# h\n0x0: key=1.2.3.4 use=0 exp=0 shard=0 http_req_rate(60000)=5\n0x1: key=1.2.3.4 use=0 exp=0 shard=0 http_req_rate(60000)=9223372036854775808").data
        "http_req_rate".data = .error (.invalidRate "9223372036854775808".data) := by
  refine ⟨by decide, by decide, ?_⟩
  decide

/-- C5 (amended): a line (other than the first) that does not match the
row grammar is skipped: `parse` returns the same result as on the
response with that line removed, provided at least two lines remain
after removal. -/
theorem claim_C5 (r exp : List Char) (l0 b : List Char) (A C : List (List Char))
    (hsplit : splitLines r = l0 :: (A ++ b :: C))
    (hb : rowMatch b = none)
    (h2 : 2 ≤ (l0 :: (A ++ C)).length) :
    parse r exp = parse (joinLines (l0 :: (A ++ C))) exp := by
  have hrne : r ≠ [] := by
    intro h0
    rw [h0, splitLines_nil] at hsplit
    have hlen := congrArg List.length hsplit
    simp at hlen
  have h2r : 2 ≤ (splitLines r).length := by
    rw [hsplit]
    simp
    omega
  have hnl : ∀ l ∈ splitLines r, '\n' ∉ l := splitLines_no_newline r
  have hnl' : ∀ l ∈ l0 :: (A ++ C), '\n' ∉ l := by
    intro l hl
    apply hnl
    rw [hsplit]
    rcases List.mem_cons.mp hl with hl | hl
    · simp [hl]
    · rcases List.mem_append.mp hl with hl | hl
      · simp [List.mem_append, hl]
      · simp [List.mem_append, hl]
  have hsplit' : splitLines (joinLines (l0 :: (A ++ C))) = l0 :: (A ++ C) :=
    splitLines_joinLines _ (by simp) hnl'
  have hne' : joinLines (l0 :: (A ++ C)) ≠ [] := by
    intro h0
    rw [h0, splitLines_nil] at hsplit'
    have hlen := congrArg List.length hsplit'
    have h2' := h2
    simp only [List.length_cons, List.length_nil, List.length_append] at hlen h2'
    omega
  rw [parse_eq_loop exp hrne h2r, parse_eq_loop exp hne' (by rw [hsplit']; exact h2),
    hsplit, hsplit']
  simp only [parseLoop]
  cases parseStep exp l0 [] with
  | error e => rfl
  | ok acc1 =>
    dsimp only
    rw [parseLoop_append, parseLoop_append]
    cases parseLoop exp A acc1 with
    | error e => rfl
    | ok acc2 =>
      dsimp only
      rw [parseLoop_skip exp C acc2 hb]

/-- Witness for C5: a malformed row between two valid ones is dropped
without changing the outcome. -/
theorem claim_C5_witness :
    rowMatch ("0x1: key=junk").data = none ∧
    parse ("# h\n0x0: key=1.2.3.4 use=0 exp=0 shard=0 http_req_rate(60000)=5\n0x1: key=junk\n0x2: key=5.6.7.8 use=0 exp=0 shard=0 http_req_rate(60000)=9").data
        "http_req_rate".data =
      parse (joinLines [("# h").data,
        ("0x0: key=1.2.3.4 use=0 exp=0 shard=0 http_req_rate(60000)=5").data,
        ("0x2: key=5.6.7.8 use=0 exp=0 shard=0 http_req_rate(60000)=9").data])
        "http_req_rate".data ∧
    parse ("# h\n0x0: key=1.2.3.4 use=0 exp=0 shard=0 http_req_rate(60000)=5\n0x1: key=junk\n0x2: key=5.6.7.8 use=0 exp=0 shard=0 http_req_rate(60000)=9").data
        "http_req_rate".data =
      .ok [(AddrFrom4 1 2 3 4, 5), (AddrFrom4 5 6 7 8, 9)] :=
  ⟨by decide,
    claim_C5 _ "http_req_rate".data ("# h").data ("0x1: key=junk").data
      [("0x0: key=1.2.3.4 use=0 exp=0 shard=0 http_req_rate(60000)=5").data]
      [("0x2: key=5.6.7.8 use=0 exp=0 shard=0 http_req_rate(60000)=9").data]
      (by decide) (by decide) (by decide),
    by decide⟩

/-- Counterexample to C5 as frozen: removing the non-matching second
line of a two-line response leaves a single line, and `parse` stops
matching entirely on one-line input — here the first line itself matches
the row grammar, so the original parse returns one entry while the
line-removed parse returns none. -/
theorem claim_C5_counterexample :
    rowMatch "junk".data = none ∧
    parse ("0x0: key=1.2.3.4 use=0 exp=0 shard=0 http_req_rate(60000)=5\njunk").data
        "http_req_rate".data = .ok [(AddrFrom4 1 2 3 4, 5)] ∧
    parse ("0x0: key=1.2.3.4 use=0 exp=0 shard=0 http_req_rate(60000)=5").data
        "http_req_rate".data = .ok [] := by
  refine ⟨by decide, ?_, by decide⟩
  decide

/-- C6: `parse` fails with `EmptyOrMalformedResponse` exactly on the
empty response; any non-empty response splitting into fewer than two
lines parses successfully to the empty mapping. -/
theorem claim_C6 (r exp : List Char) :
    (parse r exp = .error .emptyOrMalformedResponse ↔ r = []) ∧
    (r ≠ [] → (splitLines r).length < 2 → parse r exp = .ok []) := by
  constructor
  · constructor
    · intro h
      by_contra hne
      rcases Nat.lt_or_ge (splitLines r).length 2 with hlt | hge
      · rw [parse_short exp hne hlt] at h
        exact absurd h (by simp)
      · rw [parse_eq_loop exp hne hge] at h
        exact parseLoop_not_empty exp _ [] h
    · intro h
      subst h
      rfl
  · exact fun hne h2 => parse_short exp hne h2

/-- Witness for C6 at a header-only response. -/
theorem claim_C6_witness :
    ((parse ("# header only").data "http_req_rate".data =
        .error .emptyOrMalformedResponse ↔ ("# header only").data = []) ∧
      (("# header only").data ≠ [] → (splitLines ("# header only").data).length < 2 →
        parse ("# header only").data "http_req_rate".data = .ok [])) ∧
    parse ("# header only").data "http_req_rate".data = .ok [] :=
  ⟨claim_C6 ("# header only").data "http_req_rate".data, by decide⟩

/-- Grammar of the header line exactly as the specification's template
writes it: `# table: <name>, type: <type>, size:<digits>, used:<digits>`,
with the whole line consumed.  This definition follows the
specification's words; the embedded `headerCapture` follows the
compiled pattern of the code, which stops checking at the comma after
the type. -/
def fullHeaderGrammar (l : List Char) : Bool :=
  (match expectLit "# table: ".data l with
   | none => none
   | some s1 =>
     match takeRun1 isNameChar s1 with
     | none => none
     | some (_, s2) =>
       match expectLit ", type: ".data s2 with
       | none => none
       | some s3 =>
         match takeRun1 isAlphaCh s3 with
         | none => none
         | some (_, s4) =>
           match expectLit ", size:".data s4 with
           | none => none
           | some s5 =>
             match takeRun1 isDigitCh s5 with
             | none => none
             | some (_, s6) =>
               match expectLit ", used:".data s6 with
               | none => none
               | some s7 =>
                 match takeRun1 isDigitCh s7 with
                 | none => none
                 | some (_, s8) =>
                   if s8 = [] then some () else (none : Option Unit)).isSome

/-- C7 (amended): for a response with at least two lines,
`validateHeader` succeeds only when line 1 matches the prefix grammar
`# table: <name>, type: <type>,` that the code compiles (text after the
comma following the type, including the size and used fields, is not
validated); whenever line 1 does not match that prefix grammar it fails
with `HeaderParseError` and the error message contains the offending
header line. -/
theorem claim_C7 (r exp : List Char) (h2 : 2 ≤ (splitLines r).length) :
    (∀ u, validateHeader r exp = .ok u →
      (headerCapture ((splitLines r).headD [])).isSome = true) ∧
    (headerCapture ((splitLines r).headD []) = none →
      validateHeader r exp = .error (.headerParseError ((splitLines r).headD [])) ∧
      ((splitLines r).headD []) <:+:
        headerErrorMessage (.headerParseError ((splitLines r).headD []))) := by
  have hnot2 : ¬ (splitLines r).length < 2 := Nat.not_lt.mpr h2
  constructor
  · intro u hok
    unfold validateHeader at hok
    dsimp only at hok
    rw [if_neg hnot2] at hok
    cases hcap : headerCapture ((splitLines r).headD []) with
    | none => rw [hcap] at hok; exact absurd hok (by simp)
    | some v => rfl
  · intro hnone
    constructor
    · unfold validateHeader
      dsimp only
      rw [if_neg hnot2, hnone]
    · refine ⟨"Failed to parse table header, got '".data, "'".data, ?_⟩
      simp [headerErrorMessage, List.append_assoc]

/-- Witness for C7 at a malformed header line. -/
theorem claim_C7_witness :
    (2 ≤ (splitLines ("bogus\nrow").data).length) ∧
    headerCapture ((splitLines ("bogus\nrow").data).headD []) = none ∧
    validateHeader ("bogus\nrow").data "t".data =
      .error (.headerParseError ("bogus").data) ∧
    ("bogus").data <:+: headerErrorMessage (.headerParseError ("bogus").data) := by
  have h := (claim_C7 ("bogus\nrow").data "t".data (by decide)).2 (by decide)
  exact ⟨by decide, by decide, h.1, h.2⟩

/-- Counterexample to C7 as frozen: a header line that stops right
after the type's comma and carries junk instead of the size and used
fields does not match the full fixed grammar of the specification, yet
`validateHeader` succeeds. -/
theorem claim_C7_counterexample :
    fullHeaderGrammar ("# table: t, type: ip, JUNK").data = false ∧
    validateHeader ("# table: t, type: ip, JUNK\nrow").data "t".data = .ok () := by
  refine ⟨by decide, ?_⟩
  decide

/-- C8 (amended): `parse` matches every line — the first included —
against the row grammar; whenever the first line does not match it (as
with any line starting `#`), the first line contributes no entry and
triggers no fatal per-row error: the result is exactly the loop over
the remaining lines. -/
theorem claim_C8 (r exp l0 : List Char) (rest : List (List Char))
    (hsplit : splitLines r = l0 :: rest) (hne : r ≠ [])
    (h0 : rowMatch l0 = none) :
    parse r exp = parseLoop exp rest [] := by
  rcases Nat.lt_or_ge (splitLines r).length 2 with hlt | hge
  · rw [parse_short exp hne hlt]
    have hrest : rest = [] := by
      rw [hsplit] at hlt
      simp only [List.length_cons] at hlt
      exact List.length_eq_zero.mp (by omega)
    rw [hrest]
    rfl
  · rw [parse_eq_loop exp hne hge, hsplit, parseLoop_skip exp rest [] h0]

/-- Witness for C8 at a two-line response with a `#` header. -/
theorem claim_C8_witness :
    splitLines ("# h\n0x0: key=1.2.3.4 use=0 exp=0 shard=0 http_req_rate(60000)=5").data =
      ("# h").data ::
        [("0x0: key=1.2.3.4 use=0 exp=0 shard=0 http_req_rate(60000)=5").data] ∧
    rowMatch ("# h").data = none ∧
    parse ("# h\n0x0: key=1.2.3.4 use=0 exp=0 shard=0 http_req_rate(60000)=5").data
        "http_req_rate".data =
      parseLoop "http_req_rate".data
        [("0x0: key=1.2.3.4 use=0 exp=0 shard=0 http_req_rate(60000)=5").data] [] :=
  ⟨by decide, by decide,
    claim_C8 _ "http_req_rate".data ("# h").data
      [("0x0: key=1.2.3.4 use=0 exp=0 shard=0 http_req_rate(60000)=5").data]
      (by decide) (by decide) (by decide)⟩

/-- Counterexample to C8 as frozen: the loop of `parse` starts at line
index 0, so a first line that happens to match the row grammar does
contribute an entry to the returned mapping. -/
theorem claim_C8_counterexample :
    parse ("0x0: key=1.2.3.4 use=0 exp=0 shard=0 http_req_rate(60000)=5\nx").data
        "http_req_rate".data = .ok [(AddrFrom4 1 2 3 4, 5)] := by
  decide

/-- C9 (amended): for a row matching the row grammar with the expected
store type, the rate returned in the mapping equals the exact value of
the row's unsigned base-10 rate token — for tokens of any length and
with any leading zeros — provided that value is below `2^63`; larger
values make the conversion fail and abort the parse. -/
theorem claim_C9 (ip st t : List Char) (a : Addr)
    (hip : ∀ x ∈ ip, isIpChar x = true) (hipne : ip ≠ [])
    (hstc : ∀ x ∈ st, isStoreChar x = true) (hstne : st ≠ [])
    (ht : ∀ x ∈ t, isDigitCh x = true) (htne : t ≠ [])
    (hv : digitsVal t < 2 ^ 63)
    (hpa : goParseAddr ip = some a) :
    parse (joinLines [['#'], renderRowTxt ip st t]) st =
      .ok [(a, (digitsVal t : Int))] := by
  have hsplit : splitLines (joinLines [['#'], renderRowTxt ip st t]) =
      [['#'], renderRowTxt ip st t] := by
    refine splitLines_joinLines _ (by simp) ?_
    intro l hl
    rcases List.mem_cons.mp hl with hl | hl
    · rw [hl]; decide
    · rcases List.mem_cons.mp hl with hl | hl
      · rw [hl]; exact renderRowTxt_no_nl hip hstc ht
      · exact absurd hl (by simp)
  have hne : joinLines [['#'], renderRowTxt ip st t] ≠ [] := by
    intro h0
    rw [h0, splitLines_nil] at hsplit
    exact absurd (congrArg List.length hsplit) (by simp)
  rw [parse_eq_loop st hne (by rw [hsplit]; simp), hsplit]
  rw [parseLoop_skip st _ [] (rowMatch_hash [])]
  have hrm := rowMatch_render hip hipne hstc hstne ht htne
  have hat : goAtoi t = some ((digitsVal t : Nat) : Int) := by
    rw [goAtoi_digits ht htne, if_pos hv]
  have hstep : parseStep st (renderRowTxt ip st t) [] =
      .ok [(a, (digitsVal t : Int))] := by
    unfold parseStep
    rw [hrm]
    dsimp only
    rw [if_pos rfl, hpa]
    dsimp only
    rw [hat]
    dsimp only
    rw [if_neg (by simp [hasKey])]
    rfl
  simp [parseLoop, hstep]

/-- Witness for C9 at a 21-digit rate token with leading zeros. -/
theorem claim_C9_witness :
    (∀ x ∈ ("000000000001234567890").data, isDigitCh x = true) ∧
    digitsVal ("000000000001234567890").data < 2 ^ 63 ∧
    goParseAddr "1.2.3.4".data = some (AddrFrom4 1 2 3 4) ∧
    parse (joinLines [['#'],
        renderRowTxt "1.2.3.4".data "http_req_rate".data ("000000000001234567890").data])
        "http_req_rate".data =
      .ok [(AddrFrom4 1 2 3 4, (1234567890 : Int))] := by
  have h := claim_C9 "1.2.3.4".data "http_req_rate".data ("000000000001234567890").data
    (AddrFrom4 1 2 3 4) (by decide) (by decide) (by decide) (by decide) (by decide)
    (by decide) (by decide) (by decide)
  exact ⟨by decide, by decide, by decide, h⟩

/-- Counterexample to C9 as frozen: the rate token `9223372036854775808`
(that is `2^63`) appears in a row that matches the row grammar with the
expected store type, yet its exact value is not preserved: `parse`
fails with the invalid-rate error from the 64-bit integer conversion. -/
theorem claim_C9_counterexample :
    rowMatch (renderRowTxt "1.2.3.4".data "http_req_rate".data
        ("9223372036854775808").data) =
      some ("1.2.3.4".data, "http_req_rate".data, ("9223372036854775808").data) ∧
    parse (joinLines [['#'],
        renderRowTxt "1.2.3.4".data "http_req_rate".data ("9223372036854775808").data])
        "http_req_rate".data =
      .error (.invalidRate ("9223372036854775808").data) := by
  refine ⟨by decide, ?_⟩
  decide

/-- C10 (amended): `Run` validates the header against the literal
`table_requests_limiter_src_ip` regardless of the table argument; for
any other table argument, a response whose header correctly names the
requested table makes `Run` fail with a table-name mismatch and export
nothing, provided the response has at least two lines (a header-only
response fails earlier with `EmptyOrMalformedResponse`). -/
theorem claim_C10 (table r ty : List Char)
    (hne : table ≠ "table_requests_limiter_src_ip".data)
    (h2 : 2 ≤ (splitLines r).length)
    (hcap : headerCapture ((splitLines r).headD []) = some (table, ty)) :
    RunCore table r =
      .error (.headerErr
        (.tableNameMismatch "table_requests_limiter_src_ip".data table)) ∧
    ∀ out, RunCore table r ≠ .ok out := by
  have hv : validateHeader r "table_requests_limiter_src_ip".data =
      .error (.tableNameMismatch "table_requests_limiter_src_ip".data table) := by
    unfold validateHeader
    dsimp only
    rw [if_neg (Nat.not_lt.mpr h2), hcap]
    dsimp only
    rw [if_neg hne]
  have hrun : RunCore table r =
      .error (.headerErr
        (.tableNameMismatch "table_requests_limiter_src_ip".data table)) := by
    unfold RunCore
    rw [hv]
  exact ⟨hrun, fun out hout => by rw [hrun] at hout; exact absurd hout (by simp)⟩

/-- Witness for C10 at table argument `foo`. -/
theorem claim_C10_witness :
    ("foo".data ≠ "table_requests_limiter_src_ip".data) ∧
    headerCapture ((splitLines ("# table: foo, type: ip, size:1, used:1\nrow").data).headD []) =
      some ("foo".data, "ip".data) ∧
    RunCore "foo".data ("# table: foo, type: ip, size:1, used:1\nrow").data =
      .error (.headerErr
        (.tableNameMismatch "table_requests_limiter_src_ip".data "foo".data)) := by
  have h := claim_C10 "foo".data ("# table: foo, type: ip, size:1, used:1\nrow").data
    "ip".data (by decide) (by decide) (by decide)
  exact ⟨by decide, by decide, h.1⟩

/-- Counterexample to C10 as frozen: a header-only response whose
header correctly names the requested table `foo` makes `Run` fail with
`EmptyOrMalformedResponse`, not with a table-name mismatch. -/
theorem claim_C10_counterexample :
    headerCapture ("# table: foo, type: ip, size:1, used:1").data =
      some ("foo".data, "ip".data) ∧
    "foo".data ≠ "table_requests_limiter_src_ip".data ∧
    RunCore "foo".data ("# table: foo, type: ip, size:1, used:1").data =
      .error (.headerErr .emptyOrMalformedResponse) := by
  refine ⟨by decide, by decide, ?_⟩
  decide

end Exporter
